import Mathlib

/-!
Verification development for `mixed_fields.py` (class `MixedFields`): a
tagged binary container format with a streaming writer, a streaming
reader and a base-128 variable-length size-subfield codec.

Modelling conventions.  Bytes are natural numbers (every byte produced
by the source is < 256) and byte strings are `List Nat`.  Python
exceptions are an error enumeration `Err`; an operation that can raise
returns `Except Err _`.  File I/O is modelled by passing the contents
of the currently bound file explicitly: the source opens its path in
append mode for writes (`_write`) and reads at a stored seek position
(`_head`) for reads, so appending to / slicing the explicit contents is
an exact translation.  The `os.path.exists` check of `read_item` has no
counterpart here (the bound contents are always given); the
`FILE_WRITE_ERROR` branch of `_write` (an OS-level I/O failure) is not
modelled either.  The Python while-loops are translated with an
explicit fuel argument large enough that it can never be exhausted on
the inputs the source can reach (every loop iteration either raises or
consumes at least one byte of the file).
-/

namespace MixedFields

/-- Error kinds: the string codes raised by the source as the first
argument of `MixedFieldsError`.  `BAD_SIZE` is named by the design
documents but never raised anywhere in the code; `INDEX_ERROR` models
the Python `IndexError` raised by `current_byte[0]` in `read_item` when
a one-byte read at end of file returns the empty byte string. -/
inductive Err where
  | PATH_NONE
  | DIRTY_STATE
  | FILE_DOES_NOT_EXIST
  | FILE_EMPTY
  | BAD_TAG
  | INVALID_TAG
  | EMPTY_CHUNK
  | BAD_SIZE
  | BAD_HEADER
  | BAD_HEADER_PAYLOAD
  | BAD_HEADER_ENDBYTE
  | BAD_METADATA_FIELD
  | BAD_METADATA_PAYLOAD
  | BAD_METADATA_ENDBYTE
  | BAD_ENDFILE_ENDBYTE
  | BAD_DATA_ENDBYTE
  | BAD_EXTRA_METADATA_ENDBYTE
  | INVALID_WRITE_TAG
  | MISSING_EOF
  | FILE_WRITE_ERROR
  | INDEX_ERROR
  deriving DecidableEq, Repr

instance {ε α : Type} [DecidableEq ε] [DecidableEq α] : DecidableEq (Except ε α) := fun a b =>
  match a, b with
  | Except.error e, Except.error f =>
    decidable_of_iff (e = f) ⟨fun h => h ▸ rfl, fun h => by injection h⟩
  | Except.error _, Except.ok _ => isFalse (fun h => Except.noConfusion h)
  | Except.ok _, Except.error _ => isFalse (fun h => Except.noConfusion h)
  | Except.ok x, Except.ok y =>
    decidable_of_iff (x = y) ⟨fun h => h ▸ rfl, fun h => by injection h⟩

/-- ASCII file separator byte `0x1C`. -/
def SEP_FILE : Nat := 28

/-- ASCII record separator byte `0x1E`. -/
def SEP_RECORD : Nat := 30

def TAG_SIZE : Nat := 5

def SIZE_BITS_PER_SIZE_BYTE : Nat := 7

/-- Header tag `FS + "Mixd"`. -/
def TAG_HEADER : List Nat := [SEP_FILE, 77, 105, 120, 100]

/-- Header payload `"Flds"`. -/
def PAYLOAD_HEADER : List Nat := [70, 108, 100, 115]

def ENDBYTE_HEADER : List Nat := [SEP_FILE]

def HEADER : List Nat := TAG_HEADER ++ PAYLOAD_HEADER ++ ENDBYTE_HEADER

/-- Metadata tag `RS + "sMDT"`. -/
def TAG_METADATA : List Nat := [SEP_RECORD, 115, 77, 68, 84]

def PAYLOAD_METADATA_EMPTY : List Nat := [0, 0, 0, 0, 0, 0, 0, 0]

def ENDBYTE_META_STOP : List Nat := [SEP_RECORD]

def METADATA_FIELD_8_EMPTY : List Nat :=
  TAG_METADATA ++ ([8] ++ PAYLOAD_METADATA_EMPTY) ++ ENDBYTE_META_STOP

/-- Extra (user) metadata tag `RS + "eMDT"`. -/
def TAG_EXTRA_METADATA : List Nat := [SEP_RECORD, 101, 77, 68, 84]

def ENDBYTE_EXTRA_METADATA : List Nat := [SEP_RECORD]

/-- Data tag `RS + "sDAT"`. -/
def TAG_DATA : List Nat := [SEP_RECORD, 115, 68, 65, 84]

def ENDBYTE_DATA : List Nat := [SEP_RECORD]

/-- End-of-file tag `FS + "xEOF"`. -/
def TAG_ENDFILE : List Nat := [SEP_FILE, 120, 69, 79, 70]

def ENDBYTE_ENDFILE : List Nat := [SEP_FILE]

def ENDFILE : List Nat := TAG_ENDFILE ++ ENDBYTE_ENDFILE

def VALID_TAGS : List (List Nat) :=
  [TAG_HEADER, TAG_METADATA, TAG_EXTRA_METADATA, TAG_DATA, TAG_ENDFILE]

/-- The annotated field dictionary returned by `read_item`. -/
structure Field where
  tag : List Nat
  payload : List Nat
  endbyte : List Nat
  deriving DecidableEq, Repr

/-- Session state of a `MixedFields` instance: the attributes set by
`__init__` / `set_path`.  Paths are abstract identifiers. -/
structure MF where
  path : Option Nat
  bytes_written : Nat
  finalized_file_write : Bool
  head : Nat
  header : List Nat
  metadata : List Nat
  eof : List Nat
  deriving DecidableEq, Repr

/-- State produced by `__init__(path)`. -/
def MF.init (p : Option Nat) : MF := ⟨p, 0, false, 0, [], [], []⟩

/-- `_path_set`. -/
def path_set (s : MF) : Bool := s.path.isSome

/-- `_dirty_state`. -/
def dirty_state (s : MF) : Bool := decide (0 < s.bytes_written) && !s.finalized_file_write

/-- `_is_variable_length`. -/
def is_variable_length (tag : List Nat) : Bool :=
  tag == TAG_DATA || tag == TAG_METADATA || tag == TAG_EXTRA_METADATA

/-- `fhandle.read(k)` at position `pos` of a file: the requested bytes
(possibly fewer at end of file) and the new position (`fhandle.tell()`). -/
def fread (file : List Nat) (pos k : Nat) : List Nat × Nat :=
  let r := (file.drop pos).take k
  (r, pos + r.length)

/-- Length of `bin(n)[2:]`, i.e. the number of binary digits of `n`
(0 for `n = 0`); the first argument is fuel making the recursion
structural, consumed one unit per halving. -/
def bitlen_go : Nat → Nat → Nat
  | 0, _ => 0
  | fuel + 1, n => if n = 0 then 0 else bitlen_go fuel (n / 2) + 1

def bitlen (n : Nat) : Nat := bitlen_go n n

/-- The trailing run of full seven-bit groups emitted by the while-loop
of `get_size_subfield`: `size_groups size k` are the bytes for the `k`
lowest seven-bit groups of `size`, most significant first, each carrying
the continuation bit 0x80 except the last. -/
def size_groups (size : Nat) : Nat → List Nat
  | 0 => []
  | k + 1 => (size / 2 ^ (7 * k) % 128 + if 0 < k then 128 else 0) :: size_groups size k

/-- `get_size_subfield`: split the binary digits of `size` into 7-bit
groups from the least significant end; the leading group holds the
`bitlen size % 7` remainder bits and is emitted first; every byte except
the last carries continuation bit 0x80. -/
def get_size_subfield (size : Nat) : List Nat :=
  if size = 0 then [0]
  else
    let L := bitlen size
    let remainder := L % SIZE_BITS_PER_SIZE_BYTE
    let most_sig_byte : List Nat :=
      if remainder ≠ 0 then
        [size / 2 ^ (L - remainder) % 2 ^ remainder +
          if SIZE_BITS_PER_SIZE_BYTE < L then 128 else 0]
      else []
    most_sig_byte ++ size_groups size ((L - remainder) / SIZE_BITS_PER_SIZE_BYTE)

/-- `read_size_subfield`: strip the high (carrier) bit of every byte and
concatenate the 7-bit groups big-endian.  (On the empty byte string the
source raises `ValueError` from `int('', 2)`; both call sites only ever
pass a non-empty subfield, so the total function below is only applied
to non-empty input.) -/
def read_size_subfield (size_field_bytes : List Nat) : Nat :=
  size_field_bytes.foldl (fun acc b => acc * 128 + b % 128) 0

/-- The for-loop of `split_sized_chunk`: collect bytes up to and
including the first byte whose high bit is clear; if every byte has the
high bit set the whole chunk is collected. -/
def take_size_subfield : List Nat → List Nat
  | [] => []
  | b :: rest => if (b &&& 128) != 0 then b :: take_size_subfield rest else [b]

/-- `split_sized_chunk`. -/
def split_sized_chunk (chunk : List Nat) : Except Err (Nat × List Nat) :=
  if chunk.length = 0 then Except.error Err.EMPTY_CHUNK
  else
    let size_subfield := take_size_subfield chunk
    let size_value := read_size_subfield size_subfield
    let partial_chunk :=
      if size_subfield.length < chunk.length then chunk.drop size_subfield.length else []
    Except.ok (size_value, partial_chunk)

/-- The size-subfield while-loop of `read_item`: read one byte, append
it, repeat while the byte just read has its high bit set.  A one-byte
read returning nothing makes `current_byte[0]` raise `IndexError`. -/
def read_size_loop (file : List Nat) : Nat → Nat → List Nat → Except Err (List Nat × Nat)
  | 0, _, _ => Except.error Err.INDEX_ERROR
  | fuel + 1, pos, acc =>
    let r := fread file pos 1
    match r.1 with
    | [] => Except.error Err.INDEX_ERROR
    | b :: _ =>
      if (b &&& 128) != 0 then read_size_loop file fuel r.2 (acc ++ r.1)
      else Except.ok (acc ++ r.1, r.2)

/-- Result of the `while not user_field_read` loop of `read_item`: the
session attributes mutated by the loop plus the local variables `tag`,
`chunk` and `end_byte` at loop exit. -/
structure LoopOut where
  header : List Nat
  metadata : List Nat
  eof : List Nat
  head : Nat
  tag : List Nat
  chunk : List Nat
  end_byte : List Nat
  deriving DecidableEq, Repr

/-- The `while not user_field_read` loop of `read_item`, one recursive
call per iteration.  Parameters after the fuel: current file position,
then the session fields `_header`, `_metadata`, `_eof` and the local
`end_byte` (which persists across iterations).  `_head` is only
assigned on the paths that leave the loop, so it is returned rather than
threaded.  On an error the partially mutated session is discarded (no
claim depends on session state after a raised exception). -/
def read_loop (file : List Nat) :
    Nat → Nat → List Nat → List Nat → List Nat → List Nat → Except Err LoopOut
  | 0, _, _, _, _, _ => Except.error Err.INDEX_ERROR
  | fuel + 1, pos, header, metadata, eof, end_byte =>
    let rt := fread file pos TAG_SIZE
    let tag := rt.1
    if tag.length < TAG_SIZE ∨ ¬ tag ∈ VALID_TAGS then Except.error Err.BAD_TAG
    else
      match (if is_variable_length tag then read_size_loop file (file.length + 1) rt.2 []
             else Except.ok ([], rt.2)) with
      | Except.error e => Except.error e
      | Except.ok sp =>
        let size_subfield := sp.1
        let size_value := read_size_subfield size_subfield
        let rc := if size_subfield ≠ [] then fread file sp.2 size_value else ([], sp.2)
        let chunk := rc.1
        if header = [] then
          if tag ≠ TAG_HEADER then Except.error Err.BAD_HEADER
          else
            let rh := fread file rc.2 PAYLOAD_HEADER.length
            let chunk2 := chunk ++ rh.1
            if chunk2 ≠ PAYLOAD_HEADER then Except.error Err.BAD_HEADER_PAYLOAD
            else
              let re := fread file rh.2 ENDBYTE_HEADER.length
              if re.1 ≠ ENDBYTE_HEADER then Except.error Err.BAD_HEADER_ENDBYTE
              else read_loop file fuel re.2 (tag ++ chunk2 ++ re.1) metadata eof re.1
        else if metadata = [] then
          if tag ≠ TAG_METADATA then Except.error Err.BAD_METADATA_FIELD
          else if chunk ≠ PAYLOAD_METADATA_EMPTY then Except.error Err.BAD_METADATA_PAYLOAD
          else
            let re := fread file rc.2 ENDBYTE_META_STOP.length
            if re.1 ≠ ENDBYTE_META_STOP then Except.error Err.BAD_METADATA_ENDBYTE
            else read_loop file fuel re.2 header (tag ++ chunk ++ re.1) eof re.1
        else if tag = TAG_ENDFILE then
          let re := fread file rc.2 ENDBYTE_ENDFILE.length
          if re.1 ≠ ENDBYTE_ENDFILE then Except.error Err.BAD_ENDFILE_ENDBYTE
          else Except.ok ⟨header, metadata, tag ++ re.1, re.2, tag, chunk, re.1⟩
        else if eof ≠ [] then
          Except.ok ⟨header, metadata, eof, rc.2, tag, chunk, end_byte⟩
        else
          let re := fread file rc.2 ENDBYTE_HEADER.length
          if tag = TAG_DATA ∧ re.1 ≠ ENDBYTE_DATA then Except.error Err.BAD_DATA_ENDBYTE
          else if tag = TAG_EXTRA_METADATA ∧ re.1 ≠ ENDBYTE_EXTRA_METADATA then
            Except.error Err.BAD_EXTRA_METADATA_ENDBYTE
          else if tag = TAG_DATA ∨ tag = TAG_EXTRA_METADATA then
            Except.ok ⟨header, metadata, eof, re.2, tag, chunk, re.1⟩
          else read_loop file fuel re.2 header metadata eof re.1

/-- `read_item` on the session `s` with bound file contents `file`.
Returns the updated session and either `some field` (the annotated
field dictionary) or `none` (the empty dictionary `{}` returned past
end of file — the empty sentinel). -/
def read_item (s : MF) (file : List Nat) : Except Err (MF × Option Field) :=
  if !path_set s then Except.error Err.PATH_NONE
  else if dirty_state s then Except.error Err.DIRTY_STATE
  else if file.length = 0 then Except.error Err.FILE_EMPTY
  else if !(decide (s.head < file.length)) then Except.ok (s, none)
  else
    match read_loop file (file.length + 1) s.head s.header s.metadata s.eof [] with
    | Except.error e => Except.error e
    | Except.ok o =>
      if o.chunk = [] ∧ o.eof = [] then Except.error Err.MISSING_EOF
      else
        Except.ok
          ({ s with head := o.head, header := o.header, metadata := o.metadata, eof := o.eof },
            some ⟨o.tag, o.chunk, o.end_byte⟩)

/-- `_write`: append to the bound file and add the number of bytes
delivered to `_bytes_written`.  (The `except` branch producing
`FILE_WRITE_ERROR` models an OS failure and is not represented.) -/
def write_bytes (s : MF) (file bs : List Nat) : MF × List Nat :=
  ({ s with bytes_written := s.bytes_written + bs.length }, file ++ bs)

/-- `write_item(item_bytes, tag)`. -/
def write_item (s : MF) (file item_bytes tag : List Nat) : Except Err (MF × List Nat) :=
  if !path_set s then Except.error Err.PATH_NONE
  else if ¬ (tag = TAG_DATA ∨ tag = TAG_EXTRA_METADATA) then Except.error Err.INVALID_WRITE_TAG
  else
    let s1 : MF := { s with finalized_file_write := false }
    let sf :=
      if s1.bytes_written = 0 then
        let a := write_bytes s1 file HEADER
        write_bytes a.1 a.2 METADATA_FIELD_8_EMPTY
      else (s1, file)
    let desired_endbyte := if tag = TAG_DATA then ENDBYTE_DATA else ENDBYTE_EXTRA_METADATA
    let item_size_field := get_size_subfield item_bytes.length
    Except.ok (write_bytes sf.1 sf.2 (tag ++ (item_size_field ++ item_bytes) ++ desired_endbyte))

/-- `close()`. -/
def close (s : MF) (file : List Nat) : MF × List Nat :=
  if 0 < s.bytes_written ∧ s.finalized_file_write = false then
    let a := write_bytes s file ENDFILE
    ({ a.1 with finalized_file_write := true }, a.2)
  else ({ s with finalized_file_write := true }, file)

/-- `set_path(path, ignore_errors)`: the returned pair is the session
after the call together with the raised error, if any; the source
raises before mutating anything, so on an error the session is returned
unchanged. -/
def set_path (s : MF) (p : Nat) (ignore_errors : Bool) : MF × Option Err :=
  if dirty_state s = true ∧ ignore_errors = false then (s, some Err.DIRTY_STATE)
  else (⟨some p, 0, false, 0, [], [], []⟩, none)

/-- The on-disk bytes listed in scenario 1 of the design document
(write of one empty payload, then close). -/
def scenario1File : List Nat :=
  [28, 77, 105, 120, 100, 70, 108, 100, 115, 28,
   30, 115, 77, 68, 84, 8, 0, 0, 0, 0, 0, 0, 0, 0, 30,
   30, 115, 68, 65, 84, 0, 30,
   28, 120, 69, 79, 70, 28]

/-- The bytes of scenario 1 before `close` (no ENDFILE yet). -/
def scenario1Body : List Nat := scenario1File.take 32

/-- Scenario 1 file with byte 1 flipped from `0x4D` to `0x4E`
(scenario 7, corrupt header). -/
def scenario1Corrupt : List Nat := scenario1File.set 1 78

/-- The on-disk bytes of scenario 5: `write_item(b"AB", DATA)`,
`write_item(b"CD", EXTRA_METADATA)`, `close`. -/
def scenario5File : List Nat :=
  [28, 77, 105, 120, 100, 70, 108, 100, 115, 28,
   30, 115, 77, 68, 84, 8, 0, 0, 0, 0, 0, 0, 0, 0, 30,
   30, 115, 68, 65, 84, 2, 65, 66, 30,
   30, 101, 77, 68, 84, 2, 67, 68, 30,
   28, 120, 69, 79, 70, 28]

/-- Scenario 5 file with its final 6 bytes (the ENDFILE field) removed
(scenario 6, missing EOF). -/
def scenario5Trunc : List Nat := scenario5File.take 43

/-- The value `_metadata` holds after the prelude has been consumed:
tag, payload (without the size subfield) and endbyte. -/
def METADATA_STORED : List Nat := TAG_METADATA ++ PAYLOAD_METADATA_EMPTY ++ ENDBYTE_META_STOP

/-- Reader session after consuming the first user field of scenario 5. -/
def afterAB : MF := ⟨some 1, 0, false, 34, HEADER, METADATA_STORED, []⟩

/-- Reader session after consuming the second user field of scenario 5. -/
def afterCD : MF := ⟨some 1, 0, false, 43, HEADER, METADATA_STORED, []⟩

/-- Reader session after consuming the ENDFILE field of scenario 5. -/
def afterEOF : MF := ⟨some 1, 0, false, 49, HEADER, METADATA_STORED, ENDFILE⟩

lemma bitlen_go_zero (fuel : Nat) : bitlen_go fuel 0 = 0 := by
  cases fuel <;> simp [bitlen_go]

lemma bitlen_go_bounds :
    ∀ fuel n, n ≤ fuel →
      n < 2 ^ bitlen_go fuel n ∧ (0 < n → 2 ^ (bitlen_go fuel n - 1) ≤ n) := by
  intro fuel
  induction fuel with
  | zero =>
      intro n hn
      have h0 : n = 0 := Nat.le_zero.mp hn
      subst h0
      simp [bitlen_go]
  | succ fuel ih =>
      intro n hn
      by_cases h0 : n = 0
      · subst h0; simp [bitlen_go]
      · have hrec : bitlen_go (fuel + 1) n = bitlen_go fuel (n / 2) + 1 := by
          simp [bitlen_go, h0]
        have hhalf : n / 2 ≤ fuel := by omega
        obtain ⟨ub, lb⟩ := ih (n / 2) hhalf
        rw [hrec]
        constructor
        · have h2 : 2 ^ (bitlen_go fuel (n / 2) + 1) = 2 * 2 ^ bitlen_go fuel (n / 2) := by
            rw [pow_succ]; ring
          rw [h2]
          omega
        · intro _
          by_cases hh : n / 2 = 0
          · have h1 : n = 1 := by omega
            subst h1
            simp [hh, bitlen_go_zero]
          · have hlow := lb (Nat.pos_of_ne_zero hh)
            rcases heq : bitlen_go fuel (n / 2) with _ | m
            · simpa using Nat.one_le_iff_ne_zero.mpr h0
            · rw [heq] at hlow
              simp only [Nat.add_sub_cancel] at hlow ⊢
              have hp : (2 : Nat) ^ (m + 1) = 2 * 2 ^ m := by rw [pow_succ]; ring
              rw [hp]
              omega

lemma bitlen_lt (n : Nat) : n < 2 ^ bitlen n := (bitlen_go_bounds n n le_rfl).1

lemma bitlen_le (n : Nat) (h : 0 < n) : 2 ^ (bitlen n - 1) ≤ n :=
  (bitlen_go_bounds n n le_rfl).2 h

lemma bitlen_pos (n : Nat) (h : 0 < n) : 0 < bitlen n := by
  by_contra hc
  have h0 : bitlen n = 0 := by omega
  have := bitlen_lt n
  rw [h0] at this
  omega

/-- Decoding the trailing seven-bit groups with an arbitrary
accumulator recovers `n` modulo `128 ^ k`. -/
lemma foldl_decode_groups (n : Nat) : ∀ (k a : Nat),
    List.foldl (fun acc b => acc * 128 + b % 128) a (size_groups n k)
      = a * 128 ^ k + n % 128 ^ k := by
  intro k
  induction k with
  | zero => intro a; simp [size_groups, Nat.mod_one]
  | succ k ih =>
      intro a
      rw [size_groups, List.foldl_cons, ih]
      have hb : (n / 2 ^ (7 * k) % 128 + if 0 < k then 128 else 0) % 128
          = n / 2 ^ (7 * k) % 128 := by
        generalize n / 2 ^ (7 * k) = x
        split <;> omega
      rw [hb]
      have key : n % 128 ^ (k + 1) = n / 128 ^ k % 128 * 128 ^ k + n % 128 ^ k := by
        have h2 : n % 128 ^ (k + 1) / 128 ^ k = n / 128 ^ k % 128 := by
          have hp : (128 : Nat) ^ (k + 1) = 128 ^ k * 128 := by rw [pow_succ]
          rw [hp, Nat.mod_mul_right_div_self]
        have h3 : n % 128 ^ (k + 1) % 128 ^ k = n % 128 ^ k :=
          Nat.mod_mod_of_dvd n (pow_dvd_pow 128 (Nat.le_succ k))
        have h1 := Nat.div_add_mod (n % 128 ^ (k + 1)) (128 ^ k)
        rw [h2, h3] at h1
        rw [← h1]
        ring
      have h27 : (2 : Nat) ^ (7 * k) = 128 ^ k := by
        rw [pow_mul]; norm_num
      rw [key, h27]
      ring

/-- `read_size_subfield` inverts `get_size_subfield` (claim C3, main
part). -/
lemma size_roundtrip (n : Nat) : read_size_subfield (get_size_subfield n) = n := by
  by_cases h0 : n = 0
  · subst h0; rfl
  · have hn : 0 < n := Nat.pos_of_ne_zero h0
    have hub : n < 2 ^ bitlen n := bitlen_lt n
    have hL : 0 < bitlen n := bitlen_pos n hn
    by_cases hr : bitlen n % 7 = 0
    · have hgs : get_size_subfield n = size_groups n (bitlen n / 7) := by
        simp only [get_size_subfield, SIZE_BITS_PER_SIZE_BYTE]
        rw [if_neg h0]
        simp [hr]
      rw [hgs]
      unfold read_size_subfield
      rw [foldl_decode_groups]
      have h128 : (128 : Nat) ^ (bitlen n / 7) = 2 ^ bitlen n := by
        have h2 : (128 : Nat) = 2 ^ 7 := by norm_num
        rw [h2, ← pow_mul]
        congr 1
        omega
      simp only [Nat.zero_mul, Nat.zero_add, h128]
      exact Nat.mod_eq_of_lt hub
    · have hgs : get_size_subfield n =
          (n / 2 ^ (bitlen n - bitlen n % 7) % 2 ^ (bitlen n % 7) +
              if 7 < bitlen n then 128 else 0) ::
            size_groups n ((bitlen n - bitlen n % 7) / 7) := by
        simp only [get_size_subfield, SIZE_BITS_PER_SIZE_BYTE]
        rw [if_neg h0]
        simp [hr]
      rw [hgs]
      unfold read_size_subfield
      rw [List.foldl_cons, foldl_decode_groups]
      have hk7 : 7 * ((bitlen n - bitlen n % 7) / 7) = bitlen n - bitlen n % 7 := by omega
      have hvlt : n / 2 ^ (bitlen n - bitlen n % 7) < 2 ^ (bitlen n % 7) := by
        rw [Nat.div_lt_iff_lt_mul (Nat.pos_pow_of_pos _ (by norm_num))]
        calc n < 2 ^ bitlen n := hub
          _ = 2 ^ (bitlen n % 7) * 2 ^ (bitlen n - bitlen n % 7) := by
              rw [← pow_add]; congr 1; omega
      have hv64 : n / 2 ^ (bitlen n - bitlen n % 7) < 64 := by
        have h6 : (2 : Nat) ^ (bitlen n % 7) ≤ 2 ^ 6 :=
          Nat.pow_le_pow_right (by norm_num) (by omega)
        omega
      have hmod : n / 2 ^ (bitlen n - bitlen n % 7) % 2 ^ (bitlen n % 7)
          = n / 2 ^ (bitlen n - bitlen n % 7) := Nat.mod_eq_of_lt hvlt
      have hhead : (n / 2 ^ (bitlen n - bitlen n % 7) % 2 ^ (bitlen n % 7) +
          if 7 < bitlen n then 128 else 0) % 128
          = n / 2 ^ (bitlen n - bitlen n % 7) := by
        rw [hmod]
        split <;> omega
      simp only [Nat.zero_mul, Nat.zero_add, hhead]
      have h128k : (128 : Nat) ^ ((bitlen n - bitlen n % 7) / 7)
          = 2 ^ (bitlen n - bitlen n % 7) := by
        have h2 : (128 : Nat) = 2 ^ 7 := by norm_num
        rw [h2, ← pow_mul, hk7]
      rw [h128k, mul_comm]
      exact Nat.div_add_mod n _

lemma size_groups_length (n : Nat) : ∀ k, (size_groups n k).length = k := by
  intro k
  induction k with
  | zero => rfl
  | succ k ih => simp [size_groups, ih]

/-- Length of the encoding (claim C4, universal part). -/
lemma size_len (n : Nat) : (get_size_subfield n).length = max 1 ((bitlen n + 6) / 7) := by
  by_cases h0 : n = 0
  · subst h0; rfl
  · have hL : 0 < bitlen n := bitlen_pos n (Nat.pos_of_ne_zero h0)
    have hmax : max 1 ((bitlen n + 6) / 7) = (bitlen n + 6) / 7 :=
      Nat.max_eq_right (by omega)
    simp only [get_size_subfield, SIZE_BITS_PER_SIZE_BYTE]
    rw [if_neg h0, hmax]
    by_cases hr : bitlen n % 7 = 0
    · simp [hr, size_groups_length]
      omega
    · simp [hr, size_groups_length, List.length_append]
      omega

/-- The first encoded byte of a positive size has non-zero low seven
bits (claim C3, third part). -/
lemma size_head_low7 (n : Nat) (hn : 0 < n) : (get_size_subfield n).headD 0 % 128 ≠ 0 := by
  have hub : n < 2 ^ bitlen n := bitlen_lt n
  have hlb : 2 ^ (bitlen n - 1) ≤ n := bitlen_le n hn
  have hL : 0 < bitlen n := bitlen_pos n hn
  by_cases hr : bitlen n % 7 = 0
  · have hk : 0 < bitlen n / 7 := by omega
    obtain ⟨m, hm⟩ : ∃ m, bitlen n / 7 = m + 1 := ⟨bitlen n / 7 - 1, by omega⟩
    have hgs : get_size_subfield n = size_groups n (m + 1) := by
      simp only [get_size_subfield, SIZE_BITS_PER_SIZE_BYTE]
      rw [if_neg hn.ne']
      simp [hr, hm]
    rw [hgs, size_groups, List.headD_cons]
    have hlow : 64 ≤ n / 2 ^ (7 * m) := by
      rw [Nat.le_div_iff_mul_le (Nat.pos_pow_of_pos _ (by norm_num))]
      calc (64 : Nat) * 2 ^ (7 * m) = 2 ^ (7 * m + 6) := by rw [pow_add]; ring
        _ = 2 ^ (bitlen n - 1) := by congr 1; omega
        _ ≤ n := hlb
    have hhigh : n / 2 ^ (7 * m) < 128 := by
      rw [Nat.div_lt_iff_lt_mul (Nat.pos_pow_of_pos _ (by norm_num))]
      calc n < 2 ^ bitlen n := hub
        _ = 128 * 2 ^ (7 * m) := by
            rw [show (128 : Nat) = 2 ^ 7 by norm_num, ← pow_add]
            congr 1
            omega
    generalize hx : n / 2 ^ (7 * m) = x at hlow hhigh
    split <;> omega
  · have hgs : get_size_subfield n =
        (n / 2 ^ (bitlen n - bitlen n % 7) % 2 ^ (bitlen n % 7) +
            if 7 < bitlen n then 128 else 0) ::
          size_groups n ((bitlen n - bitlen n % 7) / 7) := by
      simp only [get_size_subfield, SIZE_BITS_PER_SIZE_BYTE]
      rw [if_neg hn.ne']
      simp [hr]
    rw [hgs, List.headD_cons]
    have hsub : bitlen n - bitlen n % 7 ≤ bitlen n - 1 := by omega
    have hvle : 2 ^ (bitlen n - bitlen n % 7) ≤ n :=
      le_trans (Nat.pow_le_pow_right (by norm_num) hsub) hlb
    have hv1 : 1 ≤ n / 2 ^ (bitlen n - bitlen n % 7) :=
      (Nat.one_le_div_iff (Nat.pos_pow_of_pos _ (by norm_num))).mpr hvle
    have hvlt : n / 2 ^ (bitlen n - bitlen n % 7) < 2 ^ (bitlen n % 7) := by
      rw [Nat.div_lt_iff_lt_mul (Nat.pos_pow_of_pos _ (by norm_num))]
      calc n < 2 ^ bitlen n := hub
        _ = 2 ^ (bitlen n % 7) * 2 ^ (bitlen n - bitlen n % 7) := by
            rw [← pow_add]; congr 1; omega
    have h64 : (2 : Nat) ^ (bitlen n % 7) ≤ 2 ^ 6 :=
      Nat.pow_le_pow_right (by norm_num) (by omega)
    have hmod : n / 2 ^ (bitlen n - bitlen n % 7) % 2 ^ (bitlen n % 7)
        = n / 2 ^ (bitlen n - bitlen n % 7) := Nat.mod_eq_of_lt hvlt
    rw [hmod]
    generalize hx : n / 2 ^ (bitlen n - bitlen n % 7) = x at hv1 hvlt
    have hx64 : x < 64 := by
      have h26 : (2 : Nat) ^ 6 = 64 := by norm_num
      omega
    split <;> omega

lemma size_groups_structure (n : Nat) : ∀ k, 0 < k →
    ∃ ini, size_groups n k = ini ++ [n % 128] ∧ ∀ b ∈ ini, 128 ≤ b := by
  intro k
  induction k with
  | zero => intro h; exact absurd h (lt_irrefl 0)
  | succ k ih =>
      intro _
      rcases Nat.eq_zero_or_pos k with hk | hk
      · subst hk
        refine ⟨[], ?_, by simp⟩
        simp [size_groups]
      · obtain ⟨ini, h1, h2⟩ := ih hk
        refine ⟨(n / 2 ^ (7 * k) % 128 + 128) :: ini, ?_, ?_⟩
        · rw [size_groups, h1]
          simp [hk]
        · intro b hb
          rcases List.mem_cons.mp hb with hb | hb
          · omega
          · exact h2 b hb

/-- Every encoding consists of bytes with the high bit set followed by
one final byte with the high bit clear. -/
lemma size_structure (n : Nat) :
    ∃ ini last, get_size_subfield n = ini ++ [last] ∧ last < 128 ∧ ∀ b ∈ ini, 128 ≤ b := by
  by_cases h0 : n = 0
  · exact ⟨[], 0, by subst h0; rfl, by norm_num, by simp⟩
  · have hL : 0 < bitlen n := bitlen_pos n (Nat.pos_of_ne_zero h0)
    simp only [get_size_subfield, SIZE_BITS_PER_SIZE_BYTE]
    rw [if_neg h0]
    by_cases hr : bitlen n % 7 = 0
    · have hk : 0 < (bitlen n - bitlen n % 7) / 7 := by omega
      obtain ⟨ini, h1, h2⟩ := size_groups_structure n _ hk
      rw [hr, Nat.sub_zero] at h1
      exact ⟨ini, n % 128, by simp [hr, h1], Nat.mod_lt _ (by norm_num), h2⟩
    · rcases Nat.eq_zero_or_pos ((bitlen n - bitlen n % 7) / 7) with hk | hk
      · have hL7 : ¬ 7 < bitlen n := by omega
        have hvlt : n / 2 ^ (bitlen n - bitlen n % 7) % 2 ^ (bitlen n % 7) < 128 := by
          have hB : 0 < 2 ^ (bitlen n % 7) := Nat.pos_pow_of_pos _ (by norm_num)
          have h1 : n / 2 ^ (bitlen n - bitlen n % 7) % 2 ^ (bitlen n % 7)
              < 2 ^ (bitlen n % 7) := Nat.mod_lt _ hB
          have h2 : (2 : Nat) ^ (bitlen n % 7) ≤ 2 ^ 6 :=
            Nat.pow_le_pow_right (by norm_num) (by omega)
          have h26 : (2 : Nat) ^ 6 = 64 := by norm_num
          omega
        refine ⟨[], n / 2 ^ (bitlen n - bitlen n % 7) % 2 ^ (bitlen n % 7), ?_, ?_, by simp⟩
        · simp [hr, hk, size_groups, hL7]
        · exact hvlt
      · have h7L : 7 < bitlen n := by omega
        obtain ⟨ini, h1, h2⟩ := size_groups_structure n _ hk
        refine ⟨(n / 2 ^ (bitlen n - bitlen n % 7) % 2 ^ (bitlen n % 7) + 128) :: ini,
          n % 128, ?_, Nat.mod_lt _ (by norm_num), ?_⟩
        · simp [hr, h7L, h1]
        · intro b hb
          rcases List.mem_cons.mp hb with hb | hb
          · omega
          · exact h2 b hb

lemma size_inj {m n : Nat} (h : get_size_subfield m = get_size_subfield n) : m = n := by
  have hm := size_roundtrip m
  have hn := size_roundtrip n
  rw [h, hn] at hm
  exact hm.symm

/-- The encoding is a self-delimiting code: the encoding of one integer
is never a prefix of the encoding of a different integer (claim C3,
last part). -/
lemma size_not_pre (m n : Nat) (hmn : m ≠ n) :
    ¬ (get_size_subfield m <+: get_size_subfield n) := by
  rintro ⟨t, ht⟩
  rcases List.eq_nil_or_concat' t with rfl | ⟨t2, tl, rfl⟩
  · rw [List.append_nil] at ht
    exact hmn (size_inj ht)
  · obtain ⟨im, lm, hm1, hm2, hm3⟩ := size_structure m
    obtain ⟨inn, ln, hn1, hn2, hn3⟩ := size_structure n
    rw [hm1, hn1] at ht
    have hre : (im ++ [lm] ++ t2) ++ [tl] = inn ++ [ln] := by
      rw [← ht]
      simp
    obtain ⟨h4, _⟩ := List.append_inj' hre (by simp)
    have hmem : lm ∈ inn := by
      rw [← h4]
      simp
    have := hn3 lm hmem
    omega

/-- Any successful `write_item` appends a non-empty block of bytes and
advances the byte counter by exactly its length, leaving the session
non-finalized. -/
lemma write_item_ok {s : MF} {f i t : List Nat} {s1 : MF} {f1 : List Nat}
    (h : write_item s f i t = Except.ok (s1, f1)) :
    ∃ d : List Nat, 0 < d.length ∧ f1 = f ++ d ∧
      s1.bytes_written = s.bytes_written + d.length ∧
      s1.finalized_file_write = false := by
  by_cases hp : path_set s = true
  · by_cases ht : t = TAG_DATA ∨ t = TAG_EXTRA_METADATA
    · by_cases hbw : s.bytes_written = 0
      · simp only [write_item, hp, Bool.not_true, Bool.false_eq_true, if_false,
          not_true_eq_false, ht, not_true, hbw, if_pos, write_bytes, if_true,
          Except.ok.injEq, Prod.mk.injEq] at h
        obtain ⟨h1, h2⟩ := h
        refine ⟨HEADER ++ METADATA_FIELD_8_EMPTY ++
          (t ++ (get_size_subfield i.length ++ i) ++
            if t = TAG_DATA then ENDBYTE_DATA else ENDBYTE_EXTRA_METADATA), ?_, ?_, ?_, ?_⟩
        · have h10 : HEADER.length = 10 := rfl
          simp only [List.length_append]
          omega
        · rw [← h2]
          simp [List.append_assoc]
        · rw [← h1, hbw]
          simp only [List.length_append]
          omega
        · rw [← h1]
      · simp only [write_item, hp, Bool.not_true, Bool.false_eq_true, if_false,
          not_true_eq_false, ht, not_true, hbw, if_neg, write_bytes, if_true,
          Except.ok.injEq, Prod.mk.injEq] at h
        obtain ⟨h1, h2⟩ := h
        refine ⟨t ++ (get_size_subfield i.length ++ i) ++
            (if t = TAG_DATA then ENDBYTE_DATA else ENDBYTE_EXTRA_METADATA), ?_, ?_, ?_, ?_⟩
        · rcases ht with ht | ht <;> subst ht <;> simp [TAG_DATA, TAG_EXTRA_METADATA]
        · rw [← h2]
        · rw [← h1]
        · rw [← h1]
    · simp [write_item, hp, ht] at h
  · simp [write_item, hp] at h

/-- C1.  The claim asserts the file round-trip: payloads written with
`write_item` then `close` are read back in order followed by the empty
sentinel; in particular writing the single empty payload gives the
scenario-1 bytes and reading yields one field with empty payload.  The
write half is exact (though the scenario-1 byte string has 38 bytes,
not 37): writing `b""` then closing produces exactly `scenario1File`.
The read half fails on the code: the final check of `read_item`
(`if not chunk and not self._eof`) confuses the legal empty payload
with "no field read", so the very first `read_item` on the scenario-1
file raises `MISSING_EOF` even though the file ends with a well-formed
ENDFILE field. -/
theorem c1_file_round_trip_bug :
    write_item (MF.init (some 0)) [] [] TAG_DATA
      = Except.ok (⟨some 0, 32, false, 0, [], [], []⟩, scenario1Body) ∧
    close ⟨some 0, 32, false, 0, [], [], []⟩ scenario1Body
      = (⟨some 0, 38, true, 0, [], [], []⟩, scenario1File) ∧
    scenario1File.length = 38 ∧
    read_item (MF.init (some 1)) scenario1File = Except.error Err.MISSING_EOF := by
  decide

/-- C2.  The claim asserts `read_item` only ever returns a user field
(DATA or EXTRA_METADATA) or the empty sentinel, with HEADER, METADATA
and ENDFILE consumed internally.  On the scenario-5 file the first two
calls do return the two user fields, but the third call — the one that
consumes ENDFILE — returns a field dictionary whose tag is the ENDFILE
tag instead of the empty sentinel, contradicting the function's own
doc comment ("return the payload bytes (not header, metadata, or end
of file tags)").  Only from the fourth call on is the empty sentinel
returned. -/
theorem c2_endfile_surfaced_bug :
    read_item (MF.init (some 1)) scenario5File
      = Except.ok (afterAB, some ⟨TAG_DATA, [65, 66], ENDBYTE_DATA⟩) ∧
    read_item afterAB scenario5File
      = Except.ok (afterCD, some ⟨TAG_EXTRA_METADATA, [67, 68], ENDBYTE_EXTRA_METADATA⟩) ∧
    read_item afterCD scenario5File
      = Except.ok (afterEOF, some ⟨TAG_ENDFILE, [], ENDBYTE_ENDFILE⟩) ∧
    TAG_ENDFILE ≠ TAG_DATA ∧ TAG_ENDFILE ≠ TAG_EXTRA_METADATA ∧
    read_item afterEOF scenario5File = Except.ok (afterEOF, none) := by
  decide

/-- C5.  The claim asserts that any truncation strictly before ENDFILE
is rejected with a `Bad*` or `MissingEof` error, and in particular that
on the scenario-5 file truncated by its final 6 bytes the second
`read_item` raises `MissingEof`.  The code does not do this: the
truncated file is exactly the pre-`close` state of the writer (first
two conjuncts), and reading it yields both user fields and then the
empty sentinel with no error at all — the `MISSING_EOF` check only
fires when the last field read had an empty payload. -/
theorem c5_truncation_not_rejected :
    write_item (MF.init (some 0)) [] [65, 66] TAG_DATA
      = Except.ok (⟨some 0, 34, false, 0, [], [], []⟩, scenario5File.take 34) ∧
    write_item ⟨some 0, 34, false, 0, [], [], []⟩ (scenario5File.take 34) [67, 68]
        TAG_EXTRA_METADATA
      = Except.ok (⟨some 0, 43, false, 0, [], [], []⟩, scenario5Trunc) ∧
    close ⟨some 0, 43, false, 0, [], [], []⟩ scenario5Trunc
      = (⟨some 0, 49, true, 0, [], [], []⟩, scenario5File) ∧
    scenario5File.length = 49 ∧
    read_item (MF.init (some 1)) scenario5Trunc
      = Except.ok (afterAB, some ⟨TAG_DATA, [65, 66], ENDBYTE_DATA⟩) ∧
    read_item afterAB scenario5Trunc
      = Except.ok (afterCD, some ⟨TAG_EXTRA_METADATA, [67, 68], ENDBYTE_EXTRA_METADATA⟩) ∧
    read_item afterCD scenario5Trunc = Except.ok (afterCD, none) := by
  decide

/-- C6 counterexample.  The claim says flipping byte 1 of a valid file
from `0x4D` to `0x4E` makes the first `read_item` fail with the
`BadHeader` kind.  In the code the tag-vocabulary check runs before the
header check, so the corrupted 5-byte tag is rejected as `BAD_TAG`, not
`BAD_HEADER`. -/
theorem c6_corrupt_header_counterexample :
    read_item (MF.init (some 1)) scenario1Corrupt = Except.error Err.BAD_TAG ∧
    read_item (MF.init (some 1)) scenario1Corrupt ≠ Except.error Err.BAD_HEADER := by
  decide

/-- C9 counterexample.  The claim says `split_sized_chunk` fails with
`BadSize` when the chunk ends mid-subfield (every byte has its high bit
set).  The code has no such check — no code path raises `BAD_SIZE` —
and on the chunk `{0x80}` it happily decodes the incomplete subfield to
0 with empty remainder. -/
theorem c9_split_sized_chunk_counterexample :
    split_sized_chunk [128] = Except.ok (0, []) ∧
    split_sized_chunk [128] ≠ Except.error Err.BAD_SIZE := by
  decide

lemma take_size_all_msb (c : List Nat) (hc : ∀ x ∈ c, x &&& 128 ≠ 0) :
    take_size_subfield c = c := by
  induction c with
  | nil => rfl
  | cons b rest ih =>
      rw [take_size_subfield]
      have hb : b &&& 128 ≠ 0 := hc b (by simp)
      rw [if_pos (by simpa using hb), ih (fun x hx => hc x (by simp [hx]))]

lemma take_size_split (pre rest : List Nat) (b : Nat) (hpre : ∀ x ∈ pre, x &&& 128 ≠ 0)
    (hb : b &&& 128 = 0) :
    take_size_subfield (pre ++ b :: rest) = pre ++ [b] := by
  induction pre with
  | nil => simp [take_size_subfield, hb]
  | cons a pre ih =>
      rw [List.cons_append, take_size_subfield]
      have ha : a &&& 128 ≠ 0 := hpre a (by simp)
      rw [if_pos (by simpa using ha), ih (fun x hx => hpre x (by simp [hx]))]
      rfl

/-- C3.  The size-subfield codec round-trips
(`read_size_subfield (get_size_subfield n) = n` for every `n : Nat`, so
in particular for all `n < 2 ^ 64`), the encoding of 0 is the single
byte `0x00`, the first byte of the encoding of a positive size has
non-zero low seven bits, and no encoding is a (proper) prefix of the
encoding of a different integer. -/
theorem c3_size_subfield_round_trip (n m : Nat) :
    read_size_subfield (get_size_subfield n) = n ∧
    get_size_subfield 0 = [0] ∧
    (0 < n → (get_size_subfield n).headD 0 % 128 ≠ 0) ∧
    (m ≠ n → ¬ (get_size_subfield m <+: get_size_subfield n)) :=
  ⟨size_roundtrip n, rfl, size_head_low7 n, size_not_pre m n⟩

/-- C3 witness: the theorem instantiated at `n = 1023`, `m = 127`. -/
theorem c3_size_subfield_round_trip_witness :
    read_size_subfield (get_size_subfield 1023) = 1023 ∧
    (get_size_subfield 1023).headD 0 % 128 ≠ 0 ∧
    ¬ (get_size_subfield 127 <+: get_size_subfield 1023) :=
  ⟨(c3_size_subfield_round_trip 1023 127).1,
   (c3_size_subfield_round_trip 1023 127).2.2.1 (by decide),
   (c3_size_subfield_round_trip 1023 127).2.2.2 (by decide)⟩

/-- C4.  The encoding is minimal: its length is
`max 1 (ceil (bitlen n / 7))`, and the four examples of the design
document hold. -/
theorem c4_size_subfield_minimality (n : Nat) :
    (get_size_subfield n).length = max 1 ((bitlen n + 6) / 7) ∧
    get_size_subfield 8 = [8] ∧
    get_size_subfield 127 = [127] ∧
    get_size_subfield 128 = [129, 0] ∧
    get_size_subfield 1023 = [135, 127] :=
  ⟨size_len n, by decide, by decide, by decide, by decide⟩

/-- C6 amended: for every well-formed file (any file starting with the
HEADER field, hence any byte string `HEADER ++ rest`), flipping byte 1
from `0x4D` to `0x4E` makes the first `read_item` on a fresh session
fail with the `BadTag` kind — the tag-vocabulary check precedes the
header check, so the corruption is reported as `BAD_TAG` rather than
`BAD_HEADER`. -/
theorem c6_corrupt_header_bad_tag (rest : List Nat) (p : Nat) :
    read_item (MF.init (some p)) ((HEADER ++ rest).set 1 78)
      = Except.error Err.BAD_TAG := rfl

/-- C7.  After a successful `write_item`, the first `close` appends
exactly one ENDFILE field and a second `close` appends nothing; a
`close` on a freshly created session that never wrote any bytes
appends nothing at all. -/
theorem c7_close_idempotent (s : MF) (f i t g : List Nat) (s1 : MF) (f1 : List Nat)
    (p : Option Nat) (h : write_item s f i t = Except.ok (s1, f1)) :
    (close s1 f1).2 = f1 ++ ENDFILE ∧
    (close (close s1 f1).1 (close s1 f1).2).2 = f1 ++ ENDFILE ∧
    (close (MF.init p) g).2 = g := by
  obtain ⟨d, hd, hf1, hbw, hfin⟩ := write_item_ok h
  have hpos : 0 < s1.bytes_written := by omega
  have h1 : close s1 f1
      = ({ s1 with bytes_written := s1.bytes_written + 6, finalized_file_write := true },
          f1 ++ ENDFILE) := by
    rw [close, if_pos ⟨hpos, hfin⟩]
    rfl
  have h2 : close ({ s1 with bytes_written := s1.bytes_written + 6, finalized_file_write := true }) (f1 ++ ENDFILE) = ({ s1 with bytes_written := s1.bytes_written + 6, finalized_file_write := true }, f1 ++ ENDFILE) := by
    rw [close, if_neg (by simp)]
  have h3 : close (MF.init p) g = ({ MF.init p with finalized_file_write := true }, g) := by
    rw [close, if_neg (by simp [MF.init])]
  refine ⟨by rw [h1], ?_, by rw [h3]⟩
  rw [h1, h2]

/-- C7 witness: the theorem instantiated at the scenario-1 write. -/
theorem c7_close_idempotent_witness :
    (close ⟨some 0, 32, false, 0, [], [], []⟩ scenario1Body).2 = scenario1Body ++ ENDFILE ∧
    (close (close ⟨some 0, 32, false, 0, [], [], []⟩ scenario1Body).1
        (close ⟨some 0, 32, false, 0, [], [], []⟩ scenario1Body).2).2
      = scenario1Body ++ ENDFILE ∧
    (close (MF.init (some 7)) [5]).2 = [5] :=
  c7_close_idempotent (MF.init (some 0)) [] [] TAG_DATA [5]
    ⟨some 0, 32, false, 0, [], [], []⟩ scenario1Body (some 7) (by decide)

/-- C8.  `set_path` on a dirty session with `ignore_errors = false`
raises `DirtyState` and leaves the session unchanged; otherwise it
binds the new path and resets every session field to its initial
value. -/
theorem c8_set_path_dirty (s : MF) (p : Nat) (ig : Bool) :
    (dirty_state s = true ∧ ig = false → set_path s p ig = (s, some Err.DIRTY_STATE)) ∧
    (dirty_state s = false ∨ ig = true →
      set_path s p ig = (⟨some p, 0, false, 0, [], [], []⟩, none)) := by
  constructor
  · intro h
    rw [set_path, if_pos h]
  · intro h
    rw [set_path, if_neg (by rcases h with h | h <;> simp [h])]

/-- C8 witness: the theorem instantiated at a dirty session with both
values of `ignore_errors`. -/
theorem c8_set_path_dirty_witness :
    set_path ⟨some 0, 5, false, 3, [], [], []⟩ 9 false
      = (⟨some 0, 5, false, 3, [], [], []⟩, some Err.DIRTY_STATE) ∧
    set_path ⟨some 0, 5, false, 3, [], [], []⟩ 9 true
      = (⟨some 9, 0, false, 0, [], [], []⟩, none) :=
  ⟨(c8_set_path_dirty ⟨some 0, 5, false, 3, [], [], []⟩ 9 false).1 ⟨by decide, rfl⟩,
   (c8_set_path_dirty ⟨some 0, 5, false, 3, [], [], []⟩ 9 true).2 (Or.inr rfl)⟩

/-- C9 amended: `split_sized_chunk` fails with `EmptyChunk` on the
empty chunk; when every byte of the chunk has its high bit set (the
chunk ends mid-subfield) it does NOT fail — the whole chunk is taken as
the size subfield and its decoded value is returned with an empty
remainder; otherwise the subfield is the prefix up to and including the
first byte with a clear high bit, and the decoded size together with
the remaining bytes is returned. -/
theorem c9_split_sized_chunk_errors (chunk pre rest : List Nat) (b : Nat) :
    split_sized_chunk [] = Except.error Err.EMPTY_CHUNK ∧
    (chunk ≠ [] → (∀ x ∈ chunk, x &&& 128 ≠ 0) →
      split_sized_chunk chunk = Except.ok (read_size_subfield chunk, [])) ∧
    ((∀ x ∈ pre, x &&& 128 ≠ 0) → b &&& 128 = 0 →
      split_sized_chunk (pre ++ b :: rest)
        = Except.ok (read_size_subfield (pre ++ [b]), rest)) := by
  refine ⟨rfl, ?_, ?_⟩
  · intro hne hall
    rw [split_sized_chunk, if_neg (by simpa using hne)]
    rw [take_size_all_msb chunk hall]
    simp
  · intro hpre hb
    rw [split_sized_chunk, if_neg (by simp)]
    rw [take_size_split pre rest b hpre hb]
    have hdrop : (pre ++ b :: rest).drop (pre ++ [b]).length = rest := by
      have hsplit : pre ++ b :: rest = (pre ++ [b]) ++ rest := by simp
      rw [hsplit, List.drop_left]
    show Except.ok (read_size_subfield (pre ++ [b]),
        if (pre ++ [b]).length < (pre ++ b :: rest).length then
          (pre ++ b :: rest).drop (pre ++ [b]).length
        else [])
      = Except.ok (read_size_subfield (pre ++ [b]), rest)
    rcases Nat.lt_or_ge (pre ++ [b]).length (pre ++ b :: rest).length with hlt | hge
    · rw [if_pos hlt, hdrop]
    · rw [if_neg (by omega)]
      have hl1 : (pre ++ [b]).length = pre.length + 1 := by simp
      have hl2 : (pre ++ b :: rest).length = pre.length + (rest.length + 1) := by simp
      have hrest : rest = [] := List.length_eq_zero.mp (by omega)
      rw [hrest]

/-- C9 witness: the amended theorem instantiated at the all-high-bits
chunk `{0x81, 0x80}` and at the chunk `{0x81, 0x05, 0x63}`. -/
theorem c9_split_sized_chunk_errors_witness :
    split_sized_chunk [129, 128] = Except.ok (128, []) ∧
    split_sized_chunk [129, 5, 99] = Except.ok (133, [99]) :=
  ⟨(c9_split_sized_chunk_errors [129, 128] [] [] 0).2.1 (by decide) (by decide),
   (c9_split_sized_chunk_errors [0] [129] [99] 5).2.2 (by decide) (by decide)⟩

/-- C10.  Writer operations are append-only: a successful `write_item`
leaves the prior file contents as a prefix of the new contents and
advances `bytes_written` by exactly the number of appended bytes, and
the same holds for every `close`. -/
theorem c10_append_only (s : MF) (f i t : List Nat) (s1 : MF) (f1 : List Nat)
    (r : MF) (g : List Nat) (h : write_item s f i t = Except.ok (s1, f1)) :
    (f <+: f1 ∧ s1.bytes_written = s.bytes_written + (f1.length - f.length)) ∧
    (g <+: (close r g).2 ∧
      (close r g).1.bytes_written = r.bytes_written + ((close r g).2.length - g.length)) := by
  obtain ⟨d, hd, hf1, hbw, hfin⟩ := write_item_ok h
  constructor
  · subst hf1
    refine ⟨⟨d, rfl⟩, ?_⟩
    rw [hbw]
    simp [List.length_append]
  · rw [close]
    split
    · refine ⟨⟨ENDFILE, rfl⟩, ?_⟩
      simp [write_bytes, List.length_append]
    · exact ⟨⟨[], List.append_nil g⟩, by simp⟩

/-- C10 witness: the theorem instantiated at the scenario-1 write and
a fresh session closing an arbitrary 1-byte file. -/
theorem c10_append_only_witness :
    (([] : List Nat) <+: scenario1Body ∧ 32 = 0 + (32 - 0)) ∧
    ([5] <+: (close (MF.init (some 0)) [5]).2 ∧
      (close (MF.init (some 0)) [5]).1.bytes_written
        = 0 + ((close (MF.init (some 0)) [5]).2.length - 1)) :=
  c10_append_only (MF.init (some 0)) [] [] TAG_DATA ⟨some 0, 32, false, 0, [], [], []⟩
    scenario1Body (MF.init (some 0)) [5] (by decide)

end MixedFields
